import Mathlib

/-!
Verification of the orchestration core of pb-math-service against its
natural-language specification.  Each section embeds one component of the
JavaScript source as executable Lean definitions and proves (or refutes)
the spec's claims about it.
-/

set_option maxHeartbeats 1000000

/-! ## Mutex and withTimeout (src/utils/locks.js) -/

namespace Locks

/-- State of a `Mutex` from `src/utils/locks.js`: the `locked` flag and the
FIFO queue of pending resolvers.  Waiting callers are identified by numeric
ids; the code stores their promise-resolve callbacks in arrival order. -/
structure MutexState where
  locked : Bool
  queue : List Nat
deriving DecidableEq, Repr

/-- The state `new Mutex()` starts in. -/
def MutexState.init : MutexState := ⟨false, []⟩

/-- Observable events on one mutex: a caller `w` invokes `acquire()`, or
the current holder invokes `release()`. -/
inductive Event where
  | acquire (w : Nat)
  | release
deriving DecidableEq, Repr

/-- Execution state: the mutex plus the log of acquisitions (callers whose
`acquire()` promise has resolved, in resolution order) and the number of
`release()` calls so far. -/
structure SysState where
  m : MutexState
  log : List Nat
  releases : Nat
deriving DecidableEq, Repr

def SysState.init : SysState := ⟨MutexState.init, [], 0⟩

/-- One step, mirroring `Mutex.acquire` / `Mutex.release`:
`acquire` resolves at once when the lock is free (setting `locked`),
otherwise pushes the resolver on the queue; `release` shifts the first
queued resolver and resolves it, or clears `locked` when none waits. -/
def step (s : SysState) : Event → SysState
  | .acquire w =>
    if s.m.locked then
      { s with m := { s.m with queue := s.m.queue ++ [w] } }
    else
      { s with m := { s.m with locked := true }, log := s.log ++ [w] }
  | .release =>
    match s.m.queue with
    | [] => { s with m := { s.m with locked := false }, releases := s.releases + 1 }
    | w :: rest =>
      { s with m := { s.m with queue := rest }, log := s.log ++ [w],
               releases := s.releases + 1 }

/-- Run a sequence of events. -/
def run (s : SysState) : List Event → SysState
  | [] => s
  | e :: es => run (step s e) es

/-- A trace is well formed when `release` is only invoked while the lock is
held (the code's contract: only the holder calls `release`, exactly once per
`acquire`). -/
def WF : SysState → List Event → Prop
  | _, [] => True
  | s, e :: es => (e = .release → s.m.locked = true) ∧ WF (step s e) es

/-- The callers that invoked `acquire`, in arrival order. -/
def arrivals : List Event → List Nat
  | [] => []
  | .acquire w :: es => w :: arrivals es
  | .release :: es => arrivals es

/-- Number of callers currently holding the lock: resolved acquisitions
minus completed releases. -/
def holders (s : SysState) : Int := (s.log.length : Int) - (s.releases : Int)

/-- State invariant tying the `locked` flag to the grant/release counts. -/
def Inv (s : SysState) : Prop :=
  (s.m.locked = false → s.m.queue = [] ∧ s.log.length = s.releases) ∧
  (s.m.locked = true → s.log.length = s.releases + 1)

/-- Outcome of a settled JS promise. -/
inductive Outcome (α : Type) where
  | ok (v : α)
  | err (msg : String)
deriving DecidableEq, Repr

/-- An in-flight asynchronous operation: the time at which it settles, the
outcome it settles with, and the effect it commits to shared state when it
settles. -/
structure AsyncOp (α σ : Type) where
  settleTime : Nat
  outcome : Outcome α
  effect : σ → σ

/-- The distinguished timeout rejection message from `withTimeout`. -/
def timedOutMsg : String := "Operation timed out"

/-- `withTimeout` from `src/utils/locks.js`: `Promise.race` between the
operation and a rejection scheduled at `timeoutMs`; the caller receives
whichever settles first. -/
def withTimeout (op : AsyncOp α σ) (timeoutMs : Nat) : Outcome α :=
  if op.settleTime < timeoutMs then op.outcome else .err timedOutMsg

/-- The shared state as observed at time `t`: the operation's effect is
applied once the operation settles, independently of the race result —
`withTimeout` never cancels the underlying operation. -/
def stateAt (op : AsyncOp α σ) (s0 : σ) (t : Nat) : σ :=
  if op.settleTime ≤ t then op.effect s0 else s0

end Locks

/-! ## Chunk compositor (src/services/mathJaxConverters.js, combineSvgChunks) -/

namespace Converters

/-- The numeric metrics `combineSvgChunks` parses out of one SVG chunk:
declared display width/height in ex (`width`/`height` attributes with the
`ex` unit stripped, defaulting to 0) and the four `viewBox` numbers. -/
structure Chunk where
  displayWidthEx : ℚ
  displayHeightEx : ℚ
  vbMinX : ℚ
  vbMinY : ℚ
  vbWidth : ℚ
  vbHeight : ℚ
deriving DecidableEq, Repr

/-- Per-chunk unit-to-coordinate-space scale factor:
`displayWidthEx > 0 ? vbWidth / displayWidthEx : 1`. -/
def Chunk.vbPerEx (c : Chunk) : ℚ :=
  if c.displayWidthEx > 0 then c.vbWidth / c.displayWidthEx else 1

/-- Running minimum of `vbMinY` over all chunks.  The code folds `Math.min`
starting from `+Infinity`; for a nonempty list that equals folding from the
head's value. -/
def globalMinY : List Chunk → ℚ
  | [] => 0
  | c :: rest => rest.foldl (fun acc x => min acc x.vbMinY) c.vbMinY

/-- Running maximum of `vbMinY + vbHeight` over all chunks (fold of
`Math.max` from `-Infinity`, expressed from the head for nonempty input). -/
def globalMaxY : List Chunk → ℚ
  | [] => 0
  | c :: rest =>
    rest.foldl (fun acc x => max acc (x.vbMinY + x.vbHeight)) (c.vbMinY + c.vbHeight)

/-- The `reduce` computing the combined display width:
`acc + c.displayWidthEx + (i ? marginEx : 0)`.  The index test `i ≠ 0` is
carried as the `first` flag. -/
def totalDisplayWidthExAux (m : ℚ) : List Chunk → ℚ → Bool → ℚ
  | [], acc, _ => acc
  | c :: rest, acc, first =>
    totalDisplayWidthExAux m rest (acc + c.displayWidthEx + (if first then 0 else m)) false

def totalDisplayWidthEx (cs : List Chunk) (m : ℚ) : ℚ :=
  totalDisplayWidthExAux m cs 0 true

/-- `reduce (Math.max, 0)` over the declared display heights. -/
def maxDisplayHeightEx (cs : List Chunk) : ℚ :=
  cs.foldl (fun acc c => max acc c.displayHeightEx) 0

/-- Placement of one chunk inside the composite document. -/
structure Placement where
  x : ℚ
  y : ℚ
deriving DecidableEq, Repr

/-- The placement loop: for each chunk after the first, first advance the
cursor by that chunk's own margin `vbPerEx * marginEx`, record the
placement `(xVb, vbMinY - globalMinY)`, then advance by `vbWidth`.
Returns the placements and the final cursor (`totalVbWidth`). -/
def placeAll (gMinY m : ℚ) : List Chunk → ℚ → Bool → List Placement × ℚ
  | [], xVb, _ => ([], xVb)
  | c :: rest, xVb, first =>
    let x1 := if first then xVb else xVb + c.vbPerEx * m
    let pr := placeAll gMinY m rest (x1 + c.vbWidth) false
    (⟨x1, c.vbMinY - gMinY⟩ :: pr.1, pr.2)

/-- The numeric content of the combined SVG document emitted by
`combineSvgChunks` on its multi-chunk path: declared width/height in ex,
the `viewBox` `0 globalMinY totalVbWidth (globalMaxY - globalMinY)`, and
the per-chunk translate offsets. -/
structure Composite where
  widthEx : ℚ
  heightEx : ℚ
  vbMinY : ℚ
  vbWidth : ℚ
  vbHeight : ℚ
  placements : List Placement
deriving DecidableEq, Repr

/-- Multi-chunk path of `combineSvgChunks` (the code takes this branch
whenever `svgChunks.length ≠ 1`). -/
def combineSvgChunks (cs : List Chunk) (marginEx : ℚ) : Composite :=
  let gMinY := globalMinY cs
  let gMaxY := globalMaxY cs
  let pr := placeAll gMinY marginEx cs 0 true
  { widthEx := totalDisplayWidthEx cs marginEx
    heightEx := maxDisplayHeightEx cs
    vbMinY := gMinY
    vbWidth := pr.2
    vbHeight := gMaxY - gMinY
    placements := pr.1 }

/-- The default inter-chunk margin, 0.4 ex. -/
def defaultMarginEx : ℚ := 2 / 5

end Converters

/-! ## Engine lifecycle (src/services/mathJaxConverters.js) -/

namespace JsStr

/-- JS `String.prototype.trim` on ASCII text: strip the ASCII whitespace
characters (tab, LF, VT, FF, CR, space) from both ends. -/
def jsWhitespace (c : Char) : Bool :=
  c.toNat = 9 ∨ c.toNat = 10 ∨ c.toNat = 11 ∨ c.toNat = 12 ∨ c.toNat = 13 ∨ c.toNat = 32

def jsTrim (s : String) : String :=
  String.mk (((s.toList.dropWhile jsWhitespace).reverse.dropWhile jsWhitespace).reverse)

/-- JS `String.prototype.toLowerCase` on the ASCII range, character by
character. -/
def jsToLower (s : String) : String := String.mk (s.toList.map Char.toLower)

end JsStr

namespace Lifecycle

open JsStr

/-- The characters of the literal `\require{` that the extraction regex
`/\\require\{([^}]+)\}/g` looks for. -/
def reqOpen : List Char := ['\\', 'r', 'e', 'q', 'u', 'i', 'r', 'e', '\x7b']

/-- Scan for the next `\require{name}` occurrence, capturing the nonempty
`name` (`[^}]+`) and continuing after the closing brace, exactly as
repeated `regex.exec` does; on no match at the current position, advance
one character.  `fuel` bounds the recursion by the input length. -/
def scanRequires : Nat → List Char → List String
  | 0, _ => []
  | _ + 1, [] => []
  | fuel + 1, c :: cs =>
    if reqOpen.isPrefixOf (c :: cs) then
      let rest := (c :: cs).drop 9
      let name := rest.takeWhile (· ≠ '\x7d')
      let after := rest.dropWhile (· ≠ '\x7d')
      match after, name with
      | _ :: tail, _ :: _ => jsTrim (String.mk name) :: scanRequires fuel tail
      | _, _ => scanRequires fuel cs
    else
      scanRequires fuel cs

/-- Stable insertion sort with the lexicographic order used by JS
`Array.prototype.sort()` on strings. -/
def insertStr (s : String) : List String → List String
  | [] => [s]
  | t :: ts => if s ≤ t then s :: t :: ts else t :: insertStr s ts

def sortStrings : List String → List String
  | [] => []
  | s :: ss => insertStr s (sortStrings ss)

/-- `extractRequiredPackages`: collect every `\require{...}` capture
(trimmed), then sort.  Duplicates are kept — the code pushes every match
and only sorts. -/
def extractRequiredPackages (tex : String) : List String :=
  sortStrings (scanRequires tex.toList.length tex.toList)

/-- `createPackageSignature`: comma-join, or the distinguished `default`. -/
def createPackageSignature (packages : List String) : String :=
  if packages.length > 0 then String.intercalate "," packages else "default"

/-- `needsMathJaxReset`: any difference between the incoming signature and
the currently loaded one requests a full teardown/rebuild. -/
def needsMathJaxReset (currentPackageSignature : String) (requiredPackages : List String) : Bool :=
  currentPackageSignature ≠ createPackageSignature requiredPackages

/-- The engine lifecycle state visible to this claim: the loaded package
signature, plus a counter of completed (re)initializations. -/
structure EngineState where
  currentPackageSignature : String
  reinitCount : Nat
deriving DecidableEq, Repr

/-- The sentinel signature the module starts with, before the initial
`configureMathJax()` call completes. -/
def initialSignature : String := "mathjax needs loading"

/-- `ensureMathJaxReady tex`: extract the required packages; when
`needsMathJaxReset` holds, `configureMathJax` rebuilds the engine and, on
success, installs the new signature; otherwise the existing instance is
reused untouched. -/
def ensureStep (s : EngineState) (tex : String) : EngineState :=
  let requiredPackages := extractRequiredPackages tex
  if needsMathJaxReset s.currentPackageSignature requiredPackages then
    { currentPackageSignature := createPackageSignature requiredPackages
      reinitCount := s.reinitCount + 1 }
  else s

/-- Sequential requests through `ensureMathJaxReady`. -/
def ensureRun (s : EngineState) : List String → EngineState
  | [] => s
  | tex :: rest => ensureRun (ensureStep s tex) rest

end Lifecycle

/-! ## Error fallback (src/utils/sendErrorHandler.js) -/

namespace ErrorH

/-- The `errors` block of `src/config/index.js`. -/
structure ErrorsConfig where
  alwaysSendImageOrSpeechOnError : Bool
  httpResponseErrorHeader : Option String
  logErrorsToConsole : Bool
deriving DecidableEq, Repr

/-- The shipped configuration values. -/
def configErrors : ErrorsConfig :=
  { alwaysSendImageOrSpeechOnError := true
    httpResponseErrorHeader := some "pb-mathjax-error"
    logErrorsToConsole := true }

/-- Route classes distinguished by `getRouteType`. -/
inductive RouteType where
  | speech
  | math
deriving DecidableEq, Repr

/-- Substring test used to model `url.includes("/speechtext")`. -/
def listContains (pat : List Char) : List Char → Bool
  | [] => pat.isPrefixOf ([] : List Char)
  | c :: rest => pat.isPrefixOf (c :: rest) || listContains pat rest

/-- `getRouteType`: lowercase the request URL; URLs containing
`/speechtext` are speech routes, everything else is a math (image) route. -/
def getRouteType (url : String) : RouteType :=
  if listContains "/speechtext".toList (JsStr.jsToLower url).toList then .speech else .math

def defaultErrorMessage : String := "Error processing math"

/-- JS falsy-string defaulting `x || y`. -/
def orElse (x y : String) : String := if x = "" then y else x

/-- XML escaping in `createErrorSvg`.  The code chains five global
`replace` calls (`&` first); since each rewrites a distinct single
character and `&` is handled before the escapes that introduce new `&`,
the chain equals this per-character map.  The apostrophe is written via
its code point 39. -/
def escapeXmlChar (c : Char) : String :=
  if c = '&' then "&amp;"
  else if c = '<' then "&lt;"
  else if c = '>' then "&gt;"
  else if c = Char.ofNat 34 then "&quot;"
  else if c = Char.ofNat 39 then "&#x27;"
  else String.mk [c]

def escapeXml (s : String) : String :=
  String.join (s.toList.map escapeXmlChar)

/-- The numeric and textual content of the error placeholder SVG built by
`createErrorSvg`: yellow box, red caption, message truncated to 30
characters, dimensions fitted to the text. -/
structure ErrorSvg where
  svgWidth : ℚ
  svgHeight : ℚ
  fontSize : ℚ
  escapedMessage : String
deriving DecidableEq, Repr

def createErrorSvg (errorMessage : String) : ErrorSvg :=
  let fontSize : ℚ := 14
  let padding : ℚ := 3
  let msg := orElse errorMessage "Error processing math"
  let truncatedMessage :=
    if msg.length > 30 then String.mk (msg.toList.take 27) ++ "..." else msg
  let escapedMessage := escapeXml truncatedMessage
  let estimatedTextWidth : ℚ := (truncatedMessage.length : ℚ) * fontSize * (6 / 10)
  let textHeight := fontSize
  { svgWidth := max 100 (estimatedTextWidth + padding * 2)
    svgHeight := max 40 (textHeight + padding * 2)
    fontSize := fontSize
    escapedMessage := escapedMessage }

/-- The body of a response produced by `sendError`. -/
inductive Body where
  | errorSvg (svg : ErrorSvg)
  | text (s : String)
  | json (error message : String)
deriving DecidableEq, Repr

/-- An HTTP response as assembled by `sendError`. -/
structure Response where
  status : Nat
  contentType : Option String
  cacheControl : Option String
  errorHeader : Option (String × String)
  body : Body
deriving DecidableEq, Repr

/-- `sendError` from `src/utils/sendErrorHandler.js`.  `message = none`
models an omitted `message` argument. -/
def sendError (cfg : ErrorsConfig) (url : String) (status : Nat) (error : String)
    (message : Option String) : Response :=
  if cfg.alwaysSendImageOrSpeechOnError then
    match getRouteType url with
    | .speech =>
      { status := 200
        contentType := some "text/plain"
        cacheControl := some "no-cache, no-store, must-revalidate"
        errorHeader := cfg.httpResponseErrorHeader.map (·, orElse error defaultErrorMessage)
        body := .text ("Error: " ++ error) }
    | .math =>
      { status := 200
        contentType := some "image/svg+xml"
        cacheControl := some "no-cache, no-store, must-revalidate"
        errorHeader := cfg.httpResponseErrorHeader.map (·, orElse error defaultErrorMessage)
        body := .errorSvg (createErrorSvg (orElse error defaultErrorMessage)) }
  else
    { status := status
      contentType := none
      cacheControl := none
      errorHeader := none
      body := .json (orElse error "Bad Request")
        (message.getD "An error occurred while processing your request") }

end ErrorH

/-! ## Latex route orchestration (src/routes/latex.js) -/

namespace LatexRoute

/-- Outcome of one timeout-guarded pipeline stage as seen by the route's
`catch` clauses: the value, the distinguished timeout rejection, or any
other error. -/
inductive StageResult (α : Type) where
  | ok (v : α)
  | timeout
  | error (msg : String)
deriving DecidableEq, Repr

/-- The pipeline stages of the handler body. -/
inductive Stage where
  | engine
  | svgSend
  | rasterConvert
  | pngSend
deriving DecidableEq, Repr

/-- A response emission attempted by the handler. -/
inductive Resp where
  | fallback (status : Nat) (error : String)
  | svgBody (b : Option String)
  | pngBody (b : Option String)
deriving DecidableEq, Repr

/-- Everything observable about one run of the handler. -/
structure RouteTrace where
  responses : List Resp
  stages : List Stage
  mathJaxAcquires : Nat
  mathJaxReleases : Nat
  convAcquires : Nat
  convReleases : Nat
deriving DecidableEq, Repr

/-- The `router.get('/')` body of `src/routes/latex.js` after successful
input validation, parameterized by the outcome of the two guarded stages.
It mirrors the source statement by statement: acquire the engine lock; run
`svgFromTeX` under `withTimeout`; on failure `sendError` — with no
`return`, so control falls through; `finally` release the lock; then
either send the SVG, or acquire the converter lock, run `pngFromSvg` on
whatever `newSvg` holds (`none` models `undefined`), release, and send the
PNG. -/
def latexHandler (engineResult : StageResult String) (svgFlag : Bool)
    (pngOf : Option String → StageResult String) : RouteTrace :=
  let engineOut : Option String × List Resp :=
    match engineResult with
    | .ok s => (some s, [])
    | .timeout => (none, [.fallback 504 "svgFromTeX request timed out"])
    | .error _ => (none, [.fallback 500 "Internal server error"])
  let newSvg := engineOut.1
  let resps1 := engineOut.2
  if svgFlag then
    { responses := resps1 ++ [.svgBody newSvg]
      stages := [.engine, .svgSend]
      mathJaxAcquires := 1, mathJaxReleases := 1
      convAcquires := 0, convReleases := 0 }
  else
    let pngOut : Option String × List Resp :=
      match pngOf newSvg with
      | .ok p => (some p, [])
      | .timeout => (none, [.fallback 504 "pngFromSvg request timed out"])
      | .error _ => (none, [.fallback 500 "Internal server error"])
    { responses := resps1 ++ pngOut.2 ++ [.pngBody pngOut.1]
      stages := [.engine, .rasterConvert, .pngSend]
      mathJaxAcquires := 1, mathJaxReleases := 1
      convAcquires := 1, convReleases := 1 }

end LatexRoute

/-! ## Conversion options and cache key (src/services/mathJaxConverters.js) -/

namespace Options

/-- Field types of the six recognized conversion options. -/
inductive FieldTy where
  | bool
  | num
  | str
deriving DecidableEq, Repr

/-- A JS value as stored into the options object.  `num none` models NaN
(which `JSON.stringify` renders as `null`). -/
inductive JsVal where
  | bool (b : Bool)
  | num (q : Option ℚ)
  | str (s : String)
deriving DecidableEq, Repr

/-- `toBool` from `src/utils/index.js` on a string value. -/
def toBool (v : String) : Bool :=
  (["true", "1", "yes", "on"] : List String).contains (JsStr.jsToLower v)

def natOfDigits (cs : List Char) : Nat :=
  cs.foldl (fun n c => n * 10 + (c.toNat - 48)) 0

/-- Model of JS `Number(v)` (the body of `toNum`) on plain decimal
literals `[-]digits[.digits]`; other shapes are mapped to NaN (`none`).
The claims exercised here only involve decimal literals. -/
def parseNumber (s : String) : Option ℚ :=
  let cs := s.toList
  let sign : ℚ := if cs.headD ' ' = '-' then -1 else 1
  let cs := if cs.headD ' ' = '-' then cs.tail else cs
  let intPart := cs.takeWhile (· ≠ '.')
  let rest := cs.dropWhile (· ≠ '.')
  let frac := rest.tail
  if intPart.all Char.isDigit ∧ frac.all Char.isDigit ∧ rest.length ≤ frac.length + 1 ∧
      (intPart ≠ [] ∨ frac ≠ []) then
    some (sign * ((natOfDigits intPart : ℚ) + (natOfDigits frac : ℚ) / (10 : ℚ) ^ frac.length))
  else none

/-- Coerce one present query value per its declared field type (the
`switch` in `buildMathConversionOptions`). -/
def coerce : FieldTy → String → JsVal
  | .bool, v => .bool (toBool v)
  | .num, v => .num (parseNumber v)
  | .str, v => .str v

/-- A request query: parameter name/value pairs in arrival order. -/
def Query := List (String × String)

/-- `query[key]`: first binding of the name, if any. -/
def qget (q : Query) (k : String) : Option String :=
  (q.find? (·.1 = k)).map (·.2)

/-- The `fields` table, in its literal source order. -/
def fields : List (String × FieldTy) :=
  [("display", .bool), ("em", .num), ("ex", .num),
   ("containerWidth", .num), ("scale", .num), ("family", .str)]

/-- The options object under construction: key/value pairs in insertion
order, which is what `JSON.stringify` serializes. -/
def lookupOpt (l : List (String × JsVal)) (k : String) : Option JsVal :=
  (l.find? (·.1 = k)).map (·.2)

/-- The `for (const [key, type] of Object.entries(fields))` loop: present
query values are inserted in `fields` order. -/
def buildLoop (q : Query) : List (String × JsVal) :=
  fields.foldl
    (fun options kv =>
      match (qget q kv.1).map (coerce kv.2) with
      | none => options
      | some jv => options ++ [(kv.1, jv)])
    []

/-- `if (options[k] === undefined) options[k] = v`: assignment to a missing
key appends it at the end of the insertion order. -/
def setDefault (l : List (String × JsVal)) (k : String) (v : JsVal) : List (String × JsVal) :=
  if (lookupOpt l k).isSome then l else l ++ [(k, v)]

/-- `buildMathConversionOptions`: the field loop followed by the default
merge, preserving JS object insertion order. -/
def buildMathConversionOptions (q : Query) : List (String × JsVal) :=
  let options := buildLoop q
  let options := setDefault options "display" (.bool true)
  let options := setDefault options "em" (.num (some 16))
  let options := setDefault options "ex" (.num (some 8))
  let options :=
    if (lookupOpt options "containerWidth").isSome then options
    else
      let exV : Option ℚ :=
        match lookupOpt options "ex" with
        | some (.num qv) => qv
        | _ => some 8
      options ++ [("containerWidth", .num (exV.map (· * 80)))]
  setDefault options "scale" (.num (some 1))

/-- JS number-to-string on the values that occur here; integers print as
plain decimals (the only numerals the claims evaluate concretely). -/
def qToString (q : ℚ) : String :=
  if q.den = 1 then toString q.num else toString q.num ++ "/" ++ toString q.den

def valToJson : JsVal → String
  | .bool true => "true"
  | .bool false => "false"
  | .num none => "null"
  | .num (some q) => qToString q
  | .str s => "\"" ++ s ++ "\""

/-- `JSON.stringify` of the options object, keys in insertion order. -/
def stringifyOptions (l : List (String × JsVal)) : String :=
  "\x7b" ++ String.intercalate ","
      (l.map fun kv => "\"" ++ kv.1 ++ "\":" ++ valToJson kv.2) ++ "\x7d"

/-- `generateSvgCacheKey`. -/
def generateSvgCacheKey (input ty : String) (options : List (String × JsVal)) : String :=
  ty ++ ":" ++ stringifyOptions options ++ ":" ++ input

/-- The artifact-cache key a request produces, as the composition the claim
names. -/
def cacheKeyOfQuery (input ty : String) (q : Query) : String :=
  generateSvgCacheKey input ty (buildMathConversionOptions q)

end Options

/-! ## Base64 formula processing (src/utils/index.js) -/

namespace B64

open JsStr

def b64Alphabet : List Char :=
  "ABCDEFGHIJKLMNOPQRSTUVWXYZabcdefghijklmnopqrstuvwxyz0123456789+/".toList

def sextetChar (n : Nat) : Char := b64Alphabet.getD n 'A'

def charSextet (c : Char) : Option Nat := b64Alphabet.findIdx? (· = c)

/-- Standard base64 encoding of a byte sequence, with `=` padding — the
canonical output of any RFC 4648 encoder. -/
def encodeBytes : List Nat → List Char
  | [] => []
  | [b1] => [sextetChar (b1 / 4), sextetChar (b1 % 4 * 16), '=', '=']
  | [b1, b2] =>
    [sextetChar (b1 / 4), sextetChar (b1 % 4 * 16 + b2 / 16), sextetChar (b2 % 16 * 4), '=']
  | b1 :: b2 :: b3 :: rest =>
    sextetChar (b1 / 4) :: sextetChar (b1 % 4 * 16 + b2 / 16) ::
    sextetChar (b2 % 16 * 4 + b3 / 64) :: sextetChar (b3 % 64) :: encodeBytes rest

def base64encode (bytes : List Nat) : String := String.mk (encodeBytes bytes)

/-- Base64 decoding of a canonical padded string, modelling
`Buffer.from(str, "base64")` on the inputs that survive `isBase64`
validation (Node is more lenient on other inputs, which the validator has
already excluded). -/
def decodeChars : List Char → Option (List Nat)
  | [] => some []
  | c1 :: c2 :: c3 :: c4 :: rest =>
    if c3 = '=' then
      if c4 = '=' ∧ rest = [] then
        match charSextet c1, charSextet c2 with
        | some s1, some s2 => some [s1 * 4 + s2 / 16]
        | _, _ => none
      else none
    else if c4 = '=' then
      if rest = [] then
        match charSextet c1, charSextet c2, charSextet c3 with
        | some s1, some s2, some s3 => some [s1 * 4 + s2 / 16, s2 % 16 * 16 + s3 / 4]
        | _, _, _ => none
      else none
    else
      match charSextet c1, charSextet c2, charSextet c3, charSextet c4, decodeChars rest with
      | some s1, some s2, some s3, some s4, some tail =>
        some ((s1 * 4 + s2 / 16) :: (s2 % 16 * 16 + s3 / 4) :: (s3 % 4 * 64 + s4) :: tail)
      | _, _, _, _, _ => none
  | _ => none

/-- `urlSafeBase64ToBase64`: translate the URL-safe alphabet back and pad
with `=` until the length is a multiple of 4. -/
def urlSafeBase64ToBase64 (urlSafeBase64 : String) : String :=
  let replaced := String.mk (urlSafeBase64.toList.map fun c =>
    if c = '-' then '+' else if c = '_' then '/' else c)
  replaced ++ String.mk (List.replicate ((4 - replaced.length % 4) % 4) '=')

/-- `isBase64`: reject empty input, trim, then check the shape
`^[A-Za-z0-9+/]*=\x7b0,2\x7d$` — a charset core followed by at most two
`=` signs. -/
def isBase64 (s : String) : Bool :=
  if s = "" then false
  else
    let cs := (jsTrim s).toList
    let core := cs.takeWhile (· ≠ '=')
    let pads := cs.dropWhile (· ≠ '=')
    core.all (b64Alphabet.contains ·) && pads.all (· = '=') && pads.length ≤ 2

/-- UTF-8 decoding of the byte sequence, modelled per byte; faithful to
`Buffer.prototype.toString("utf-8")` exactly on ASCII bytes (< 128), which
is the domain all theorems below restrict to. -/
def asciiStr (bytes : List Nat) : String := String.mk (bytes.map Char.ofNat)

/-- The UTF-16 code units of a string as bytes, the inverse view used to
state the re-encoding half of the round trip (exact for ASCII text). -/
def strBytes (s : String) : List Nat := s.toList.map Char.toNat

inductive FormulaError where
  | invalidBase64
  | missingFormula
deriving DecidableEq, Repr

/-- `processFormula` from `src/utils/index.js` (the part after the
`isBase64` query flag has been coerced): optionally decode, validate,
reject invalid input with the 400 validation response, reject an empty
result, and trim. -/
def processFormula (isBase64Flag : Bool) (formula : String) : Except FormulaError String :=
  let decoded : Except FormulaError String :=
    if isBase64Flag ∧ formula ≠ "" then
      let b := urlSafeBase64ToBase64 formula
      if isBase64 b then
        match decodeChars b.toList with
        | some bytes => .ok (jsTrim (asciiStr bytes))
        | none => .error .invalidBase64
      else .error .invalidBase64
    else .ok formula
  match decoded with
  | .error e => .error e
  | .ok f => if f = "" then .error .missingFormula else .ok (jsTrim f)

end B64

/-! ## Response-cache middleware (src/middleware/cache.js) -/

namespace CacheMW

/-- What the middleware stores for a URL: the response body and the two
selected headers. -/
structure CachedEntry where
  buffer : ErrorH.Body
  contentType : String
  cacheControl : String
deriving DecidableEq, Repr

/-- The response cache keyed by request URL (newest binding first; the
LRU bounds and TTL are irrelevant to the claims). -/
def Cache := List (String × CachedEntry)

def lookupC (c : Cache) (url : String) : Option CachedEntry :=
  (c.find? (·.1 = url)).map (·.2)

def insertC (c : Cache) (url : String) (e : CachedEntry) : Cache := (url, e) :: c

/-- What a route handler sends for one request. -/
structure HResp where
  status : Nat
  contentType : Option String
  cacheControl : Option String
  body : ErrorH.Body
deriving DecidableEq, Repr

/-- The response the client observes, including the `X-Cache` marker. -/
structure MwResp where
  status : Nat
  contentType : Option String
  cacheControl : Option String
  xCache : String
  body : ErrorH.Body
deriving DecidableEq, Repr

/-- `cacheMiddleware` for one GET request: serve from cache with
`X-Cache: HIT`, or run the handler and — whenever `res.statusCode === 200`,
with no inspection of the response's own `Cache-Control` — store the body
plus the two selected headers, answering with `X-Cache: MISS`. -/
def cacheMiddleware (cache : Cache) (url : String) (handler : HResp) : MwResp × Cache :=
  match lookupC cache url with
  | some e =>
    ({ status := 200, contentType := some e.contentType,
       cacheControl := some e.cacheControl, xCache := "HIT", body := e.buffer }, cache)
  | none =>
    let cache2 :=
      if handler.status = 200 then
        insertC cache url
          { buffer := handler.body
            contentType := handler.contentType.getD "application/octet-stream"
            cacheControl := handler.cacheControl.getD "public, max-age=86400" }
      else cache
    ({ status := handler.status, contentType := handler.contentType,
       cacheControl := handler.cacheControl, xCache := "MISS", body := handler.body }, cache2)

/-- View of a `sendError` response as the handler output the middleware
intercepts. -/
def respOfSendError (r : ErrorH.Response) : HResp :=
  { status := r.status, contentType := r.contentType,
    cacheControl := r.cacheControl, body := r.body }

/-- Two successive GETs of the same URL against an initially empty cache,
with the handler outcomes of each request given separately. -/
def processTwo (url : String) (h1 h2 : HResp) : MwResp × MwResp :=
  let r1 := cacheMiddleware [] url h1
  let r2 := cacheMiddleware r1.2 url h2
  (r1.1, r2.1)

end CacheMW

/-! ## Theorems -/

namespace Locks

theorem run_append (s : SysState) (es1 es2 : List Event) :
    run s (es1 ++ es2) = run (run s es1) es2 := by
  induction es1 generalizing s with
  | nil => rfl
  | cons e es ih => simp [run, ih]

theorem inv_init : Inv SysState.init := by
  constructor <;> intro h <;> simp_all [SysState.init, MutexState.init]

theorem inv_step (s : SysState) (e : Event) (hwf : e = .release → s.m.locked = true)
    (hinv : Inv s) : Inv (step s e) := by
  obtain ⟨h1, h2⟩ := hinv
  cases e with
  | acquire w =>
    by_cases hl : s.m.locked = true
    · have hs : step s (.acquire w) = { s with m := { s.m with queue := s.m.queue ++ [w] } } := by
        simp [step, hl]
      rw [hs]
      exact ⟨fun h => absurd h (by simp [hl]), fun _ => h2 hl⟩
    · have hl' : s.m.locked = false := by simpa using hl
      obtain ⟨hq, hlen⟩ := h1 hl'
      have hs : step s (.acquire w)
          = { s with m := { s.m with locked := true }, log := s.log ++ [w] } := by
        simp [step, hl']
      rw [hs]
      refine ⟨fun h => by simp at h, fun _ => ?_⟩
      simp [hlen]
  | release =>
    have hl := hwf rfl
    cases hq : s.m.queue with
    | nil =>
      have hs : step s .release
          = { s with m := { s.m with locked := false }, releases := s.releases + 1 } := by
        simp [step, hq]
      rw [hs]
      refine ⟨fun _ => ⟨hq, ?_⟩, fun h => by simp at h⟩
      simpa using h2 hl
    | cons w rest =>
      have hs : step s .release
          = { s with m := { s.m with queue := rest }, log := s.log ++ [w],
                     releases := s.releases + 1 } := by
        simp [step, hq]
      rw [hs]
      refine ⟨fun h => absurd h (by simp [hl]), fun _ => ?_⟩
      simpa using h2 hl

theorem wf_step (s : SysState) (e : Event) (es : List Event) (h : WF s (e :: es)) :
    (e = .release → s.m.locked = true) ∧ WF (step s e) es := h

theorem inv_run (s : SysState) (es : List Event) (hwf : WF s es) (hinv : Inv s) :
    Inv (run s es) := by
  induction es generalizing s with
  | nil => exact hinv
  | cons e es ih =>
    obtain ⟨h1, h2⟩ := hwf
    exact ih (step s e) h2 (inv_step s e h1 hinv)

theorem wf_append_left (s : SysState) (es1 es2 : List Event) (h : WF s (es1 ++ es2)) :
    WF s es1 := by
  induction es1 generalizing s with
  | nil => trivial
  | cons e es ih =>
    obtain ⟨h1, h2⟩ := h
    exact ⟨h1, ih (step s e) h2⟩

theorem log_queue_step (s : SysState) (e : Event) (hwf : e = .release → s.m.locked = true)
    (hinv : Inv s) :
    (step s e).log ++ (step s e).m.queue
      = s.log ++ s.m.queue ++ arrivals [e] := by
  cases e with
  | acquire w =>
    by_cases hl : s.m.locked = true
    · simp [step, hl, arrivals]
    · have hl' : s.m.locked = false := by simpa using hl
      obtain ⟨hq, -⟩ := hinv.1 hl'
      simp [step, hl', arrivals, hq]
  | release =>
    cases hq : s.m.queue with
    | nil => simp [step, hq, arrivals]
    | cons w rest => simp [step, hq, arrivals]

theorem log_queue_run (s : SysState) (es : List Event) (hwf : WF s es) (hinv : Inv s) :
    (run s es).log ++ (run s es).m.queue = s.log ++ s.m.queue ++ arrivals es := by
  induction es generalizing s with
  | nil => simp [run, arrivals]
  | cons e es ih =>
    obtain ⟨h1, h2⟩ := hwf
    have hstep := log_queue_step s e h1 hinv
    have := ih (step s e) h2 (inv_step s e h1 hinv)
    rw [run, this, hstep]
    cases e <;> simp [arrivals]

theorem holders_le_one (s : SysState) (hinv : Inv s) : holders s ≤ 1 := by
  unfold holders
  by_cases hl : s.m.locked = true
  · have := hinv.2 hl; omega
  · have hl' : s.m.locked = false := by simpa using hl
    have := (hinv.1 hl').2; omega

theorem run_acquires_locked (ws : List Nat) (s : SysState) (hl : s.m.locked = true) :
    run s (ws.map .acquire) = { s with m := { s.m with queue := s.m.queue ++ ws } } := by
  induction ws generalizing s with
  | nil => simp [run]
  | cons w ws ih =>
    simp only [List.map_cons, run, step, hl, if_pos]
    rw [ih _ (by simp [hl])]
    simp

theorem run_releases (q : List Nat) (s : SysState) (hq : s.m.queue = q)
    (hl : s.m.locked = true) :
    run s (List.replicate (q.length + 1) .release)
      = ⟨⟨false, []⟩, s.log ++ q, s.releases + q.length + 1⟩ := by
  induction q generalizing s with
  | nil => simp [List.replicate, run, step, hq]
  | cons w rest ih =>
    have : rest.length + 1 + 1 = (w :: rest).length + 1 := by simp
    rw [← this, List.replicate_succ, run, step]
    simp only [hq]
    rw [ih _ (by simp) (by simp [hl])]
    simp [Nat.add_assoc, Nat.add_comm 1 rest.length]

/-- C1: `acquire()` resolves immediately when the mutex is free and
otherwise enqueues the caller at the back; `release()` hands the mutex to
the longest-waiting (front-of-queue) acquirer or frees it when nobody
waits; along any well-formed trace at most one caller holds the mutex at
any time and grants happen in FIFO arrival order; and with K acquirers
followed by K releases every caller acquires exactly once, in arrival
order, with total acquisitions equal to total releases. -/
theorem mutex_fifo_contract :
    (∀ (s : SysState) (w : Nat), s.m.locked = false →
      step s (.acquire w) = { s with m := { s.m with locked := true }, log := s.log ++ [w] }) ∧
    (∀ (s : SysState) (w : Nat), s.m.locked = true →
      step s (.acquire w) = { s with m := { s.m with queue := s.m.queue ++ [w] } }) ∧
    (∀ (s : SysState) (w : Nat) (rest : List Nat), s.m.queue = w :: rest →
      step s .release = { s with m := { s.m with queue := rest }, log := s.log ++ [w],
                                 releases := s.releases + 1 }) ∧
    (∀ s : SysState, s.m.queue = [] →
      step s .release = { s with m := { s.m with locked := false },
                                 releases := s.releases + 1 }) ∧
    (∀ events pre suf : List Event, events = pre ++ suf → WF SysState.init events →
      holders (run SysState.init pre) ≤ 1) ∧
    (∀ events : List Event, WF SysState.init events →
      (run SysState.init events).log
        = (arrivals events).take (run SysState.init events).log.length) ∧
    (∀ ws : List Nat,
      (run SysState.init (ws.map .acquire ++ List.replicate ws.length .release)).log = ws ∧
      (run SysState.init (ws.map .acquire ++ List.replicate ws.length .release)).releases
        = ws.length ∧
      (ws.Nodup → ∀ w ∈ ws,
        (run SysState.init (ws.map .acquire ++ List.replicate ws.length .release)).log.count w
          = 1)) := by
  refine ⟨?_, ?_, ?_, ?_, ?_, ?_, ?_⟩
  · intro s w h; simp [step, h]
  · intro s w h; simp [step, h]
  · intro s w rest h; simp [step, h]
  · intro s h; simp [step, h]
  · intro events pre suf hsplit hwf
    subst hsplit
    have hpre := wf_append_left _ _ _ hwf
    exact holders_le_one _ (inv_run _ _ hpre inv_init)
  · intro events hwf
    have h0 := log_queue_run SysState.init events hwf inv_init
    have hinit : SysState.init.log ++ SysState.init.m.queue ++ arrivals events
        = arrivals events := rfl
    rw [hinit] at h0
    rw [← h0, List.take_left]
  · intro ws
    have hrun : run SysState.init (ws.map .acquire ++ List.replicate ws.length .release)
        = ⟨⟨false, []⟩, ws, ws.length⟩ := by
      cases ws with
      | nil => simp [run, SysState.init, MutexState.init]
      | cons w rest =>
        rw [run_append]
        have h1 : run SysState.init ((w :: rest).map .acquire)
            = ⟨⟨true, rest⟩, [w], 0⟩ := by
          simp only [List.map_cons, run, step, SysState.init, MutexState.init]
          rw [run_acquires_locked rest _ (by simp)]
          simp
        rw [h1]
        have h2 := run_releases rest ⟨⟨true, rest⟩, [w], 0⟩ rfl rfl
        simp only [List.length_cons]
        rw [h2]
        simp
    refine ⟨by rw [hrun], by rw [hrun], ?_⟩
    intro hnodup w hw
    rw [hrun]
    exact List.count_eq_one_of_mem hnodup hw

/-- Witness for C1 at concrete inputs: three acquirers then three
releases, and a short well-formed trace. -/
theorem mutex_fifo_contract_witness :
    (run SysState.init (([1, 2, 3] : List Nat).map .acquire
        ++ List.replicate 3 .release)).log = [1, 2, 3] ∧
    holders (run SysState.init [.acquire 1]) ≤ 1 := by
  constructor
  · exact (mutex_fifo_contract.2.2.2.2.2.2 [1, 2, 3]).1
  · refine mutex_fifo_contract.2.2.2.2.1 [.acquire 1, .release] [.acquire 1] [.release] rfl ?_
    refine ⟨by simp, ⟨by simp [step, SysState.init, MutexState.init], trivial⟩⟩

/-- C2: an operation that settles before the deadline delivers its real
outcome to the caller; one that the deadline beats delivers the
distinguished timeout error instead, its own (late) outcome being
discarded; and in either case the operation's side effect on shared state
is applied at its settle time — `withTimeout` cancels nothing. -/
theorem withTimeout_race_no_cancel {α σ : Type} (op : AsyncOp α σ) (timeoutMs : Nat)
    (s0 : σ) (t : Nat) :
    (op.settleTime < timeoutMs → withTimeout op timeoutMs = op.outcome) ∧
    (timeoutMs ≤ op.settleTime → withTimeout op timeoutMs = .err timedOutMsg) ∧
    (timeoutMs ≤ op.settleTime → ∀ v : α, op.outcome = .ok v →
      withTimeout op timeoutMs ≠ .ok v) ∧
    (op.settleTime ≤ t → stateAt op s0 t = op.effect s0) := by
  refine ⟨?_, ?_, ?_, ?_⟩
  · intro h; simp [withTimeout, h]
  · intro h; simp [withTimeout, Nat.not_lt.2 h]
  · intro h v hv
    simp [withTimeout, Nat.not_lt.2 h]
  · intro h; simp [stateAt, h]

/-- Witness for C2: a five-tick operation under a three-tick deadline
yields the timeout error, yet the shared-state effect (+1) is visible at
its settle time. -/
theorem withTimeout_race_no_cancel_witness :
    withTimeout (⟨5, .ok 7, (· + 1)⟩ : AsyncOp Nat Nat) 3 = .err timedOutMsg ∧
    stateAt (⟨5, .ok 7, (· + 1)⟩ : AsyncOp Nat Nat) 10 6 = 11 := by
  constructor
  · exact (withTimeout_race_no_cancel ⟨5, .ok 7, (· + 1)⟩ 3 10 6).2.1 (by decide)
  · exact (withTimeout_race_no_cancel ⟨5, .ok 7, (· + 1)⟩ 3 10 6).2.2.2 (by decide)

end Locks

namespace Converters

theorem foldl_min_spec (l : List ℚ) (a : ℚ) :
    (l.foldl min a = a ∨ l.foldl min a ∈ l) ∧ l.foldl min a ≤ a ∧
      ∀ x ∈ l, l.foldl min a ≤ x := by
  induction l generalizing a with
  | nil => exact ⟨Or.inl rfl, le_refl a, by simp⟩
  | cons c t ih =>
    obtain ⟨hmem, hle, hall⟩ := ih (min a c)
    refine ⟨?_, ?_, ?_⟩
    · rcases hmem with h | h
      · rcases le_total a c with hac | hca
        · exact Or.inl (by rw [List.foldl_cons, h, min_eq_left hac])
        · exact Or.inr (by rw [List.foldl_cons, h, min_eq_right hca]; exact List.mem_cons_self _ _)
      · exact Or.inr (List.mem_cons_of_mem _ h)
    · exact le_trans hle (min_le_left a c)
    · intro x hx
      rcases List.mem_cons.1 hx with rfl | hx
      · exact le_trans hle (min_le_right a x)
      · exact hall x hx

theorem foldl_max_spec (l : List ℚ) (a : ℚ) :
    (l.foldl max a = a ∨ l.foldl max a ∈ l) ∧ a ≤ l.foldl max a ∧
      ∀ x ∈ l, x ≤ l.foldl max a := by
  induction l generalizing a with
  | nil => exact ⟨Or.inl rfl, le_refl a, by simp⟩
  | cons c t ih =>
    obtain ⟨hmem, hle, hall⟩ := ih (max a c)
    refine ⟨?_, ?_, ?_⟩
    · rcases hmem with h | h
      · rcases le_total a c with hac | hca
        · exact Or.inr (by rw [List.foldl_cons, h, max_eq_right hac]; exact List.mem_cons_self _ _)
        · exact Or.inl (by rw [List.foldl_cons, h, max_eq_left hca])
      · exact Or.inr (List.mem_cons_of_mem _ h)
    · exact le_trans (le_max_left a c) hle
    · intro x hx
      rcases List.mem_cons.1 hx with rfl | hx
      · exact le_trans (le_max_right a x) hle
      · exact hall x hx

theorem totalDisplayWidthExAux_false (m : ℚ) (cs : List Chunk) (acc : ℚ) :
    totalDisplayWidthExAux m cs acc false
      = acc + (cs.map (·.displayWidthEx)).sum + (cs.length : ℚ) * m := by
  induction cs generalizing acc with
  | nil => simp [totalDisplayWidthExAux]
  | cons c rest ih =>
    rw [totalDisplayWidthExAux, ih]
    simp only [List.map_cons, List.sum_cons, List.length_cons]
    push_cast
    ring

theorem totalDisplayWidthEx_eq (cs : List Chunk) (m : ℚ) (h : cs ≠ []) :
    totalDisplayWidthEx cs m
      = (cs.map (·.displayWidthEx)).sum + ((cs.length : ℚ) - 1) * m := by
  cases cs with
  | nil => exact absurd rfl h
  | cons c rest =>
    rw [totalDisplayWidthEx, totalDisplayWidthExAux, totalDisplayWidthExAux_false]
    simp only [List.map_cons, List.sum_cons, List.length_cons]
    push_cast
    ring

theorem placeAll_length (g m : ℚ) (cs : List Chunk) (x : ℚ) (f : Bool) :
    (placeAll g m cs x f).1.length = cs.length := by
  induction cs generalizing x f with
  | nil => rfl
  | cons c rest ih => simp [placeAll, ih]

theorem placeAll_y_map (g m : ℚ) (cs : List Chunk) (x : ℚ) (f : Bool) :
    (placeAll g m cs x f).1.map (·.y) = cs.map (fun c => c.vbMinY - g) := by
  induction cs generalizing x f with
  | nil => rfl
  | cons c rest ih => simp [placeAll, ih]

theorem placeAll_get_succ (g m : ℚ) (cs : List Chunk) :
    ∀ (x : ℚ) (f : Bool) (i : Nat) (ci ci1 : Chunk) (p1 p2 : Placement),
      cs.get? i = some ci → cs.get? (i + 1) = some ci1 →
      (placeAll g m cs x f).1.get? i = some p1 →
      (placeAll g m cs x f).1.get? (i + 1) = some p2 →
      p2.x = p1.x + ci.vbWidth + ci1.vbPerEx * m := by
  induction cs with
  | nil => intro x f i ci ci1 p1 p2 h1; simp at h1
  | cons c rest ih =>
    intro x f i ci ci1 p1 p2 h1 h2 h3 h4
    cases i with
    | zero =>
      cases rest with
      | nil => simp at h2
      | cons c1 rest' =>
        have hc : ci = c := by simpa using h1.symm
        have hc1 : ci1 = c1 := by simpa using h2.symm
        subst hc
        subst hc1
        have e3 : (placeAll g m (ci :: ci1 :: rest') x f).1.get? 0
            = some ⟨if f then x else x + ci.vbPerEx * m, ci.vbMinY - g⟩ := by
          simp [placeAll]
        have e4 : (placeAll g m (ci :: ci1 :: rest') x f).1.get? 1
            = some ⟨(if f then x else x + ci.vbPerEx * m) + ci.vbWidth + ci1.vbPerEx * m,
                    ci1.vbMinY - g⟩ := by
          simp [placeAll]
        rw [e3] at h3
        rw [e4] at h4
        have hp1 := Option.some.inj h3
        have hp2 := Option.some.inj h4
        rw [← hp1, ← hp2]
    | succ j =>
      simp only [List.get?] at h1 h2
      simp only [placeAll, List.get?] at h3 h4
      exact ih _ false j ci ci1 p1 p2 h1 h2 h3 h4

/-- C3: for `N ≥ 2` fragments the composite's declared width is the sum of
the declared display widths plus `(N-1)` margins, its declared height is
the maximum declared display height among the fragments, its viewBox
height is the global maximum y-extent minus the global minimum y-extent
across the fragments' bounding boxes, and each fragment's vertical offset
is its own bounding-box minimum-y minus the global minimum-y. -/
theorem combine_chunks_geometry (cs : List Chunk) (m : ℚ)
    (h2 : 2 ≤ cs.length) (hh : ∀ c ∈ cs, 0 ≤ c.displayHeightEx) :
    (combineSvgChunks cs m).widthEx
      = (cs.map (·.displayWidthEx)).sum + ((cs.length : ℚ) - 1) * m ∧
    ((combineSvgChunks cs m).heightEx ∈ cs.map (·.displayHeightEx) ∧
      ∀ c ∈ cs, c.displayHeightEx ≤ (combineSvgChunks cs m).heightEx) ∧
    (∃ lo hi : ℚ,
      lo ∈ cs.map (·.vbMinY) ∧ (∀ c ∈ cs, lo ≤ c.vbMinY) ∧
      hi ∈ cs.map (fun c => c.vbMinY + c.vbHeight) ∧
      (∀ c ∈ cs, c.vbMinY + c.vbHeight ≤ hi) ∧
      (combineSvgChunks cs m).vbHeight = hi - lo ∧
      (combineSvgChunks cs m).placements.map (·.y) = cs.map (fun c => c.vbMinY - lo)) := by
  have hne : cs ≠ [] := by cases cs <;> simp_all
  refine ⟨totalDisplayWidthEx_eq cs m hne, ⟨?_, ?_⟩, ?_⟩
  · show maxDisplayHeightEx cs ∈ _
    rw [maxDisplayHeightEx, ← List.foldl_map]
    obtain ⟨hmem, -, hall⟩ := foldl_max_spec (cs.map (·.displayHeightEx)) 0
    rcases hmem with h0 | h
    · cases cs with
      | nil => exact absurd rfl hne
      | cons c rest =>
        have hc : c.displayHeightEx ≤ 0 := by
          have := hall c.displayHeightEx (by simp)
          rw [h0] at this; exact this
        have hc' : 0 ≤ c.displayHeightEx := hh c (by simp)
        rw [h0, ← le_antisymm hc hc']
        simp
    · exact h
  · intro c hc
    show _ ≤ maxDisplayHeightEx cs
    rw [maxDisplayHeightEx, ← List.foldl_map]
    exact (foldl_max_spec (cs.map (·.displayHeightEx)) 0).2.2 _ (List.mem_map_of_mem _ hc)
  · cases cs with
    | nil => exact absurd rfl hne
    | cons c rest =>
      refine ⟨globalMinY (c :: rest), globalMaxY (c :: rest), ?_, ?_, ?_, ?_, rfl, ?_⟩
      · rw [globalMinY, ← List.foldl_map]
        obtain ⟨hmem, -, -⟩ := foldl_min_spec (rest.map (·.vbMinY)) c.vbMinY
        rcases hmem with h | h
        · rw [h]; simp
        · simp only [List.map_cons]
          exact List.mem_cons_of_mem _ h
      · intro d hd
        rw [globalMinY, ← List.foldl_map]
        obtain ⟨-, hle, hall⟩ := foldl_min_spec (rest.map (·.vbMinY)) c.vbMinY
        rcases List.mem_cons.1 hd with rfl | hd
        · exact hle
        · exact hall _ (List.mem_map_of_mem _ hd)
      · rw [globalMaxY, ← List.foldl_map]
        obtain ⟨hmem, -, -⟩ := foldl_max_spec (rest.map (fun x => x.vbMinY + x.vbHeight))
          (c.vbMinY + c.vbHeight)
        rcases hmem with h | h
        · rw [h]; simp
        · simp only [List.map_cons]
          exact List.mem_cons_of_mem _ h
      · intro d hd
        rw [globalMaxY, ← List.foldl_map]
        obtain ⟨-, hle, hall⟩ := foldl_max_spec (rest.map (fun x => x.vbMinY + x.vbHeight))
          (c.vbMinY + c.vbHeight)
        rcases List.mem_cons.1 hd with rfl | hd
        · exact hle
        · exact hall _ (List.mem_map_of_mem _ hd)
      · exact placeAll_y_map _ _ _ _ _

/-- Witness for C3 at two concrete fragments. -/
theorem combine_chunks_geometry_witness :
    (combineSvgChunks [⟨1, 2, 0, -1, 10, 3⟩, ⟨2, 1, 0, 0, 4, 1⟩] (2 / 5)).widthEx
      = (([⟨1, 2, 0, -1, 10, 3⟩, ⟨2, 1, 0, 0, 4, 1⟩] : List Chunk).map
          (·.displayWidthEx)).sum
        + ((([⟨1, 2, 0, -1, 10, 3⟩, ⟨2, 1, 0, 0, 4, 1⟩] : List Chunk).length : ℚ) - 1)
          * (2 / 5) :=
  (combine_chunks_geometry [⟨1, 2, 0, -1, 10, 3⟩, ⟨2, 1, 0, 0, 4, 1⟩] (2 / 5)
    (by decide) (by decide)).1

/-- C9 counterexample: with a zero-width first fragment, the second
fragment is still placed a margin (`vbPerEx · marginEx = (4/2)·(2/5)`)
past the first fragment's bounding box — a zero-width fragment does not
suppress the margin before the next fragment. -/
theorem zero_width_margin_counterexample :
    ((combineSvgChunks [⟨0, 1, 0, 0, 5, 1⟩, ⟨2, 1, 0, 0, 4, 1⟩] (2 / 5)).placements.map (·.x)
      = [0, 29 / 5]) ∧
    (29 / 5 : ℚ) ≠ 0 + 5 := by
  constructor
  · norm_num [combineSvgChunks, placeAll, Chunk.vbPerEx, globalMinY]
  · norm_num

/-- C9 amended: a zero-declared-width fragment's scale factor defaults to
1 (the width division is never taken), but the fixed margin is still
inserted before every fragment after the first: the gap between
consecutive placements is always the predecessor's bounding-box width plus
the successor's own `vbPerEx · marginEx`, independent of any zero-width
fragment. -/
theorem zero_width_scale_margin_behavior :
    (∀ c : Chunk, c.displayWidthEx = 0 → c.vbPerEx = 1) ∧
    (∀ (cs : List Chunk) (m : ℚ) (i : Nat) (ci ci1 : Chunk) (p1 p2 : Placement),
      cs.get? i = some ci → cs.get? (i + 1) = some ci1 →
      (combineSvgChunks cs m).placements.get? i = some p1 →
      (combineSvgChunks cs m).placements.get? (i + 1) = some p2 →
      p2.x = p1.x + ci.vbWidth + ci1.vbPerEx * m) := by
  constructor
  · intro c h
    simp [Chunk.vbPerEx, h]
  · intro cs m i ci ci1 p1 p2 h1 h2 h3 h4
    exact placeAll_get_succ (globalMinY cs) m cs 0 true i ci ci1 p1 p2 h1 h2 h3 h4

/-- Witness for C9's amended statement: a zero-width fragment followed by
a two-ex-wide fragment; the scale factor is 1 and the successor sits at
`0 + 5 + 2·(2/5)`. -/
theorem zero_width_scale_margin_behavior_witness :
    (Chunk.vbPerEx ⟨0, 1, 0, 0, 5, 1⟩ = 1) ∧
    ((⟨6, 0⟩ : Placement).x = (⟨0, 0⟩ : Placement).x
      + (⟨0, 1, 0, 0, 5, 1⟩ : Chunk).vbWidth
      + (⟨0, 1, 0, 0, 4, 1⟩ : Chunk).vbPerEx * 1) := by
  constructor
  · exact zero_width_scale_margin_behavior.1 ⟨0, 1, 0, 0, 5, 1⟩ (by norm_num)
  · exact zero_width_scale_margin_behavior.2 [⟨0, 1, 0, 0, 5, 1⟩, ⟨0, 1, 0, 0, 4, 1⟩]
      1 0 _ _ ⟨0, 0⟩ ⟨6, 0⟩ (by simp) (by simp)
      (by norm_num [combineSvgChunks, placeAll, Chunk.vbPerEx, globalMinY])
      (by norm_num [combineSvgChunks, placeAll, Chunk.vbPerEx, globalMinY])

end Converters

namespace Lifecycle

/-- C4: `needsMathJaxReset` rebuilds on any difference between the incoming
extracted signature and the loaded one — no superset check, no union, no
memoization of previously seen signatures — so requesting capability set A,
then B, then A again from any state not already loaded with A performs
three distinct reinitializations, each installing the new signature
wholesale. -/
theorem signature_replace_no_memoization
    (s : EngineState) (texA texB : String)
    (hAB : createPackageSignature (extractRequiredPackages texA)
         ≠ createPackageSignature (extractRequiredPackages texB))
    (h0 : s.currentPackageSignature
         ≠ createPackageSignature (extractRequiredPackages texA)) :
    (∀ (s' : EngineState) (tex : String),
      needsMathJaxReset s'.currentPackageSignature (extractRequiredPackages tex) = true
        ↔ s'.currentPackageSignature
            ≠ createPackageSignature (extractRequiredPackages tex)) ∧
    (ensureRun s [texA, texB, texA]).reinitCount = s.reinitCount + 3 ∧
    (ensureRun s [texA, texB, texA]).currentPackageSignature
      = createPackageSignature (extractRequiredPackages texA) := by
  refine ⟨?_, ?_⟩
  · intro s' tex
    simp [needsMathJaxReset]
  · have hr1 : needsMathJaxReset s.currentPackageSignature (extractRequiredPackages texA)
        = true := by simp [needsMathJaxReset, h0]
    have step1 : ensureStep s texA
        = ⟨createPackageSignature (extractRequiredPackages texA), s.reinitCount + 1⟩ := by
      simp [ensureStep, hr1]
    have hr2 : needsMathJaxReset (createPackageSignature (extractRequiredPackages texA))
        (extractRequiredPackages texB) = true := by simp [needsMathJaxReset, hAB]
    have step2 : ensureStep ⟨createPackageSignature (extractRequiredPackages texA),
        s.reinitCount + 1⟩ texB
        = ⟨createPackageSignature (extractRequiredPackages texB), s.reinitCount + 2⟩ := by
      simp [ensureStep, hr2]
    have hr3 : needsMathJaxReset (createPackageSignature (extractRequiredPackages texB))
        (extractRequiredPackages texA) = true := by
      simp [needsMathJaxReset]
      exact fun h => hAB h.symm
    have step3 : ensureStep ⟨createPackageSignature (extractRequiredPackages texB),
        s.reinitCount + 2⟩ texA
        = ⟨createPackageSignature (extractRequiredPackages texA), s.reinitCount + 3⟩ := by
      simp [ensureStep, hr3]
    simp [ensureRun, step1, step2, step3]

/-- Witness for C4: `\require{a}`, `\require{b}`, `\require{a}` from the
module's initial sentinel state: three reinitializations. -/
theorem signature_replace_no_memoization_witness :
    (ensureRun ⟨initialSignature, 0⟩
      ["\\require\x7ba\x7d", "\\require\x7bb\x7d", "\\require\x7ba\x7d"]).reinitCount
      = 0 + 3 :=
  (signature_replace_no_memoization ⟨initialSignature, 0⟩
    "\\require\x7ba\x7d" "\\require\x7bb\x7d" (by decide) (by decide)).2.1

end Lifecycle

namespace ErrorH

/-- C5: `sendError` is one code path switched by the
`errors.alwaysSendImageOrSpeechOnError` flag: when the flag is set it
responds 200 with a `Cache-Control` forbidding caching and a
content-type matching the route's output class — an `Error: `-prefixed
plain-text line on speech routes, the captioned error-SVG placeholder on
image routes; when the flag is clear it responds with the supplied
non-success status and a structured JSON error body. -/
theorem sendError_modes (cfg : ErrorsConfig) (url : String) (status : Nat)
    (error : String) (message : Option String) :
    (cfg.alwaysSendImageOrSpeechOnError = true →
      (sendError cfg url status error message).status = 200 ∧
      (sendError cfg url status error message).cacheControl
        = some "no-cache, no-store, must-revalidate" ∧
      (getRouteType url = .speech →
        (sendError cfg url status error message).contentType = some "text/plain" ∧
        (sendError cfg url status error message).body = .text ("Error: " ++ error)) ∧
      (getRouteType url = .math →
        (sendError cfg url status error message).contentType = some "image/svg+xml" ∧
        (sendError cfg url status error message).body
          = .errorSvg (createErrorSvg (orElse error defaultErrorMessage)))) ∧
    (cfg.alwaysSendImageOrSpeechOnError = false →
      (sendError cfg url status error message).status = status ∧
      (sendError cfg url status error message).contentType = none ∧
      (sendError cfg url status error message).body
        = .json (orElse error "Bad Request")
            (message.getD "An error occurred while processing your request")) := by
  constructor
  · intro hflag
    cases hroute : getRouteType url <;>
      simp [sendError, hflag, hroute]
  · intro hflag
    simp [sendError, hflag]

/-- Witness for C5: the shipped configuration (flag on) answers 200 on an
image route; a flag-off configuration passes the supplied 404 through. -/
theorem sendError_modes_witness :
    (sendError configErrors "/latex?latex=eA" 504 "boom" none).status = 200 ∧
    (sendError ⟨false, none, false⟩ "/latex?latex=eA" 404 "boom" none).status = 404 :=
  ⟨((sendError_modes configErrors "/latex?latex=eA" 504 "boom" none).1 rfl).1,
   ((sendError_modes ⟨false, none, false⟩ "/latex?latex=eA" 404 "boom" none).2 rfl).1⟩

end ErrorH

namespace LatexRoute

/-- C6 (code evaluated at the failing input): when `svgFromTeX` times out
on a PNG-format request, the engine lock is acquired and released exactly
once and the 504 fallback is emitted — but, because the `catch` block does
not return, the handler still proceeds: it acquires the converter lock,
runs the raster-conversion stage on the undefined SVG, and attempts two
further response emissions, instead of stopping at the fallback. -/
theorem latex_engine_timeout_falls_through :
    latexHandler .timeout false
        (fun o => if o.isNone then .error "svg is undefined" else .ok "png")
      = { responses := [.fallback 504 "svgFromTeX request timed out",
                        .fallback 500 "Internal server error",
                        .pngBody none],
          stages := [.engine, .rasterConvert, .pngSend],
          mathJaxAcquires := 1, mathJaxReleases := 1,
          convAcquires := 1, convReleases := 1 } := rfl

end LatexRoute

namespace Options

/-- C7 counterexample: the queries `\x7b\x7d` and `em=16` (16 being the
default) have the same effective options after default-filling — the two
option objects hold the same key/value pairs — yet produce different cache
keys: defaulted keys are appended after supplied ones, and
`JSON.stringify` follows insertion order. -/
theorem cache_key_counterexample :
    (buildMathConversionOptions []).Perm (buildMathConversionOptions [("em", "16")]) ∧
    cacheKeyOfQuery "x^2" "tex" [] ≠ cacheKeyOfQuery "x^2" "tex" [("em", "16")] := by
  have e1 : buildMathConversionOptions []
      = [("display", .bool true), ("em", .num (some 16)), ("ex", .num (some 8)),
         ("containerWidth", .num (some 640)), ("scale", .num (some 1))] := by
    simp +decide [buildMathConversionOptions, buildLoop, fields, qget, setDefault, lookupOpt,
      List.find?]
    norm_num
  have e2 : buildMathConversionOptions [("em", "16")]
      = [("em", .num (some 16)), ("display", .bool true), ("ex", .num (some 8)),
         ("containerWidth", .num (some 640)), ("scale", .num (some 1))] := by
    simp +decide [buildMathConversionOptions, buildLoop, fields, qget, setDefault, lookupOpt,
      List.find?, coerce, parseNumber, natOfDigits]
    norm_num
  constructor
  · rw [e1, e2]
    decide
  · simp only [cacheKeyOfQuery, e1, e2]
    decide

/-- C7 amended: the cache key is insensitive to query-parameter arrival
order and to the casing/format of the values — any two queries whose six
recognized fields are present with coercion-equal values produce the same
key — but supplying a field explicitly at its default value versus
omitting it changes the JSON key order and hence the key. -/
theorem cache_key_deterministic (input ty : String) (q1 q2 : Query)
    (hdisplay : (qget q1 "display").map (coerce .bool)
       = (qget q2 "display").map (coerce .bool))
    (hem : (qget q1 "em").map (coerce .num) = (qget q2 "em").map (coerce .num))
    (hex : (qget q1 "ex").map (coerce .num) = (qget q2 "ex").map (coerce .num))
    (hcw : (qget q1 "containerWidth").map (coerce .num)
       = (qget q2 "containerWidth").map (coerce .num))
    (hscale : (qget q1 "scale").map (coerce .num) = (qget q2 "scale").map (coerce .num))
    (hfamily : (qget q1 "family").map (coerce .str) = (qget q2 "family").map (coerce .str)) :
    cacheKeyOfQuery input ty q1 = cacheKeyOfQuery input ty q2 := by
  have hloop : buildLoop q1 = buildLoop q2 := by
    simp only [buildLoop, fields, List.foldl_cons, List.foldl_nil]
    rw [hdisplay, hem, hex, hcw, hscale, hfamily]
  have hopts : buildMathConversionOptions q1 = buildMathConversionOptions q2 := by
    simp only [buildMathConversionOptions, hloop]
  simp only [cacheKeyOfQuery, generateSvgCacheKey, hopts]

/-- Witness for C7's amended statement: `display=TRUE&em=16` and
`em=016&display=yes` — different arrival order, casing and numeral format,
same key. -/
theorem cache_key_deterministic_witness :
    cacheKeyOfQuery "x^2" "tex" [("display", "TRUE"), ("em", "16")]
      = cacheKeyOfQuery "x^2" "tex" [("em", "016"), ("display", "yes")] :=
  cache_key_deterministic "x^2" "tex" _ _
    (by decide) (by rfl) (by decide) (by decide) (by decide) (by decide)

end Options

namespace CacheMW

/-- C10: fallback responses sent with status 200 are stored by the
response-cache middleware like any success — its store-on-send test is
only `statusCode === 200` and ignores the response's own no-cache
`Cache-Control` — so a second GET of the same URL is served the cached
error artifact with `X-Cache: HIT`, even though the handler would now
succeed. -/
theorem fallback_cached_served_as_hit (url : String) (error : String) (success : HResp) :
    (processTwo url
        (respOfSendError (ErrorH.sendError ErrorH.configErrors url 504 error none))
        success).1.xCache = "MISS" ∧
    (processTwo url
        (respOfSendError (ErrorH.sendError ErrorH.configErrors url 504 error none))
        success).2.xCache = "HIT" ∧
    (processTwo url
        (respOfSendError (ErrorH.sendError ErrorH.configErrors url 504 error none))
        success).2.status = 200 ∧
    (processTwo url
        (respOfSendError (ErrorH.sendError ErrorH.configErrors url 504 error none))
        success).2.body
      = (ErrorH.sendError ErrorH.configErrors url 504 error none).body ∧
    (processTwo url
        (respOfSendError (ErrorH.sendError ErrorH.configErrors url 504 error none))
        success).2.cacheControl = some "no-cache, no-store, must-revalidate" ∧
    (∀ h : HResp,
      (lookupC (cacheMiddleware [] url h).2 url).isSome = (h.status == 200)) := by
  have hlast : ∀ h : HResp,
      (lookupC (cacheMiddleware [] url h).2 url).isSome = (h.status == 200) := by
    intro h
    by_cases hs : h.status = 200 <;>
      simp [cacheMiddleware, lookupC, insertC, List.find?, hs]
  refine ⟨?_, ?_, ?_, ?_, ?_, hlast⟩ <;>
    cases hroute : ErrorH.getRouteType url <;>
      simp [processTwo, cacheMiddleware, lookupC, insertC, respOfSendError,
        ErrorH.sendError, ErrorH.configErrors, hroute, List.find?]

end CacheMW

namespace B64

open JsStr

theorem charSextet_sextetChar (n : Nat) (h : n < 64) : charSextet (sextetChar n) = some n := by
  have hfin : ∀ m : Fin 64, charSextet (sextetChar m.val) = some m.val := by decide
  exact hfin ⟨n, h⟩

theorem mem_of_head? {α : Type} {l : List α} {a : α} (h : l.head? = some a) : a ∈ l := by
  cases l with
  | nil => simp at h
  | cons b t =>
    obtain rfl : b = a := by simpa using h
    exact List.mem_cons_self b t

theorem mem_of_getLast? {α : Type} {l : List α} {a : α} (h : l.getLast? = some a) :
    a ∈ l := by
  rw [List.getLast?_eq_head?_reverse] at h
  exact List.mem_reverse.1 (mem_of_head? h)

theorem sextetChar_mem (n : Nat) : sextetChar n ∈ b64Alphabet := by
  rw [sextetChar, List.getD_eq_getElem?_getD]
  cases h : b64Alphabet[n]? with
  | none =>
    simp only [Option.getD_none]
    decide
  | some c =>
    obtain ⟨hlt, hget⟩ := List.getElem?_eq_some_iff.1 h
    simp only [Option.getD_some]
    rw [← hget]
    exact List.getElem_mem hlt

theorem eq_not_mem_b64 : ('=' ∈ b64Alphabet) = False := by simp; decide

theorem b64_char_props : ∀ c ∈ b64Alphabet,
    jsWhitespace c = false ∧ c ≠ '-' ∧ c ≠ '_' ∧ c ≠ '=' := by decide

theorem sextetChar_ne_eq (n : Nat) : sextetChar n ≠ '=' :=
  (b64_char_props _ (sextetChar_mem n)).2.2.2

theorem map_eq_self_of {α} (f : α → α) (l : List α) (h : ∀ c ∈ l, f c = c) :
    l.map f = l := by
  induction l with
  | nil => rfl
  | cons c t ih =>
    simp [h c (List.mem_cons_self c t), ih fun x hx => h x (List.mem_cons_of_mem _ hx)]

theorem dropWhile_eq_self {α} (p : α → Bool) (l : List α)
    (h : ∀ c, l.head? = some c → p c = false) : l.dropWhile p = l := by
  cases l with
  | nil => rfl
  | cons a t => simp [List.dropWhile_cons, h a rfl]

theorem jsTrim_mk_eq_self (cs : List Char)
    (hh : ∀ c, cs.head? = some c → jsWhitespace c = false)
    (hl : ∀ c, cs.getLast? = some c → jsWhitespace c = false) :
    jsTrim (String.mk cs) = String.mk cs := by
  unfold jsTrim
  have htl : (String.mk cs).toList = cs := rfl
  rw [htl, dropWhile_eq_self _ cs hh, dropWhile_eq_self _ cs.reverse
    (fun c hc => hl c (by rwa [List.head?_reverse] at hc)), List.reverse_reverse]

theorem jsTrim_all_eq_self (cs : List Char)
    (h : ∀ c ∈ cs, jsWhitespace c = false) :
    jsTrim (String.mk cs) = String.mk cs := by
  refine jsTrim_mk_eq_self cs (fun c hc => ?_) (fun c hc => ?_)
  · exact h c (mem_of_head? hc)
  · exact h c (mem_of_getLast? hc)

theorem takeWhile_append_split (p : Char → Bool) :
    ∀ (l1 l2 : List Char), (∀ c ∈ l1, p c = true) → (∀ c, l2.head? = some c → p c = false) →
      (l1 ++ l2).takeWhile p = l1 ∧ (l1 ++ l2).dropWhile p = l2 := by
  intro l1
  induction l1 with
  | nil =>
    intro l2 _ h2
    cases l2 with
    | nil => exact ⟨rfl, rfl⟩
    | cons c t => simp [List.takeWhile_cons, List.dropWhile_cons, h2 c rfl]
  | cons a t ih =>
    intro l2 h1 h2
    have ha := h1 a (List.mem_cons_self a t)
    obtain ⟨ht, hd⟩ := ih l2 (fun c hc => h1 c (List.mem_cons_of_mem _ hc)) h2
    simp [List.takeWhile_cons, List.dropWhile_cons, ha, ht, hd]

/-- The shape of canonical base64 output: alphabet characters followed by
at most two `=` pads. -/
theorem encode_split : ∀ (fuel : Nat) (bs : List Nat), bs.length ≤ fuel → bs ≠ [] →
    ∃ core pads, encodeBytes bs = core ++ pads ∧ core ≠ [] ∧
      (∀ c ∈ core, c ∈ b64Alphabet) ∧ (∀ c ∈ pads, c = '=') ∧ pads.length ≤ 2 := by
  intro fuel
  induction fuel with
  | zero => intro bs hlen hne; cases bs with
    | nil => exact absurd rfl hne
    | cons b t => simp at hlen
  | succ n ih =>
    intro bs hlen hne
    match bs with
    | [b1] =>
      refine ⟨[sextetChar (b1 / 4), sextetChar (b1 % 4 * 16)], ['=', '='], rfl, by simp, ?_, ?_, by simp⟩
      · intro c hc
        rcases List.mem_cons.1 hc with rfl | hc
        · exact sextetChar_mem _
        · rcases List.mem_cons.1 hc with rfl | hc
          · exact sextetChar_mem _
          · simp at hc
      · intro c hc
        rcases List.mem_cons.1 hc with rfl | hc
        · rfl
        · rcases List.mem_cons.1 hc with rfl | hc
          · rfl
          · simp at hc
    | [b1, b2] =>
      refine ⟨[sextetChar (b1 / 4), sextetChar (b1 % 4 * 16 + b2 / 16),
        sextetChar (b2 % 16 * 4)], ['='], rfl, by simp, ?_, ?_, by simp⟩
      · intro c hc
        rcases List.mem_cons.1 hc with rfl | hc
        · exact sextetChar_mem _
        · rcases List.mem_cons.1 hc with rfl | hc
          · exact sextetChar_mem _
          · rcases List.mem_cons.1 hc with rfl | hc
            · exact sextetChar_mem _
            · simp at hc
      · intro c hc
        rcases List.mem_cons.1 hc with rfl | hc
        · rfl
        · simp at hc
    | b1 :: b2 :: b3 :: rest =>
      by_cases hrest : rest = []
      · subst hrest
        refine ⟨[sextetChar (b1 / 4), sextetChar (b1 % 4 * 16 + b2 / 16),
          sextetChar (b2 % 16 * 4 + b3 / 64), sextetChar (b3 % 64)], [],
          by simp [encodeBytes], by simp, ?_, by simp, by simp⟩
        intro c hc
        rcases List.mem_cons.1 hc with rfl | hc
        · exact sextetChar_mem _
        · rcases List.mem_cons.1 hc with rfl | hc
          · exact sextetChar_mem _
          · rcases List.mem_cons.1 hc with rfl | hc
            · exact sextetChar_mem _
            · rcases List.mem_cons.1 hc with rfl | hc
              · exact sextetChar_mem _
              · simp at hc
      · obtain ⟨core, pads, heq, hcne, hcore, hpads, hlen2⟩ :=
          ih rest (by simp at hlen; omega) hrest
        refine ⟨sextetChar (b1 / 4) :: sextetChar (b1 % 4 * 16 + b2 / 16) ::
          sextetChar (b2 % 16 * 4 + b3 / 64) :: sextetChar (b3 % 64) :: core, pads,
          by simp [encodeBytes, heq], by simp, ?_, hpads, hlen2⟩
        intro c hc
        rcases List.mem_cons.1 hc with rfl | hc
        · exact sextetChar_mem _
        · rcases List.mem_cons.1 hc with rfl | hc
          · exact sextetChar_mem _
          · rcases List.mem_cons.1 hc with rfl | hc
            · exact sextetChar_mem _
            · rcases List.mem_cons.1 hc with rfl | hc
              · exact sextetChar_mem _
              · exact hcore c hc

theorem encodeBytes_ne_nil (bs : List Nat) (h : bs ≠ []) : encodeBytes bs ≠ [] := by
  match bs with
  | [b1] => simp [encodeBytes]
  | [b1, b2] => simp [encodeBytes]
  | b1 :: b2 :: b3 :: rest => simp [encodeBytes]

theorem isBase64_encode (bs : List Nat) (h : bs ≠ []) :
    isBase64 (base64encode bs) = true := by
  obtain ⟨core, pads, heq, hcne, hcore, hpads, hplen⟩ :=
    encode_split bs.length bs le_rfl h
  have hne' : base64encode bs ≠ "" := by
    intro hc
    exact encodeBytes_ne_nil bs h (by simpa using congrArg String.data hc)
  have hallwsp : ∀ c ∈ encodeBytes bs, jsWhitespace c = false := by
    intro c hc
    rw [heq] at hc
    rcases List.mem_append.1 hc with hc | hc
    · exact (b64_char_props c (hcore c hc)).1
    · rw [hpads c hc]; decide
  have htrim : jsTrim (base64encode bs) = base64encode bs :=
    jsTrim_all_eq_self _ hallwsp
  unfold isBase64
  rw [if_neg hne', htrim]
  have htl : (base64encode bs).toList = encodeBytes bs := rfl
  rw [htl, heq]
  obtain ⟨htake, hdrop⟩ := takeWhile_append_split ((· ≠ '=') : Char → Bool) core pads
    (fun c hc => by simp [(b64_char_props c (hcore c hc)).2.2.2])
    (fun c hc => by simp [hpads c (mem_of_head? hc)])
  simp only [htake, hdrop, Bool.and_eq_true, List.all_eq_true, decide_eq_true_eq]
  refine ⟨⟨fun c hc => ?_, fun c hc => by simpa using hpads c hc⟩, by simpa using hplen⟩
  simpa [List.contains] using List.elem_eq_true_of_mem (hcore c hc)

theorem encodeBytes_length_mod4 : ∀ (fuel : Nat) (l : List Nat), l.length ≤ fuel →
    (encodeBytes l).length % 4 = 0 := by
  intro fuel
  induction fuel with
  | zero => intro l hl; cases l with
    | nil => simp [encodeBytes]
    | cons b t => simp at hl
  | succ n ih =>
    intro l hl
    match l with
    | [] => simp [encodeBytes]
    | [b1] => simp [encodeBytes]
    | [b1, b2] => simp [encodeBytes]
    | b1 :: b2 :: b3 :: rest =>
      have := ih rest (by simp at hl; omega)
      simp only [encodeBytes, List.length_cons]
      omega

theorem urlSafe_encode_eq (bs : List Nat) :
    urlSafeBase64ToBase64 (base64encode bs) = base64encode bs := by
  obtain hcs : ∀ c ∈ encodeBytes bs, c ∈ b64Alphabet ∨ c = '=' := by
    by_cases h : bs = []
    · subst h; simp [encodeBytes]
    · obtain ⟨core, pads, heq, -, hcore, hpads, -⟩ := encode_split bs.length bs le_rfl h
      intro c hc
      rw [heq] at hc
      rcases List.mem_append.1 hc with hc | hc
      · exact Or.inl (hcore c hc)
      · exact Or.inr (hpads c hc)
  have hmap : (base64encode bs).toList.map
      (fun c => if c = '-' then '+' else if c = '_' then '/' else c)
        = (base64encode bs).toList := by
    refine map_eq_self_of _ _ (fun c hc => ?_)
    have hc' : c ∈ encodeBytes bs := hc
    rcases hcs c hc' with hmem | rfl
    · obtain ⟨-, h1, h2, -⟩ := b64_char_props c hmem
      simp [h1, h2]
    · rfl
  have hmk : String.mk (base64encode bs).toList = base64encode bs := rfl
  have hlen : (base64encode bs).length % 4 = 0 := by
    have h0 : (base64encode bs).length = (encodeBytes bs).length := rfl
    rw [h0]
    exact encodeBytes_length_mod4 bs.length bs le_rfl
  simp only [urlSafeBase64ToBase64, hmap, hmk, hlen]
  have h1 : String.mk (List.replicate ((4 - 0) % 4) '=') = "" := rfl
  rw [h1, String.append_empty]

theorem decode_encode : ∀ (fuel : Nat) (bs : List Nat), bs.length ≤ fuel →
    (∀ b ∈ bs, b < 256) → decodeChars (encodeBytes bs) = some bs := by
  intro fuel
  induction fuel with
  | zero => intro bs hlen _; cases bs with
    | nil => rfl
    | cons b t => simp at hlen
  | succ n ih =>
    intro bs hlen hrange
    match bs with
    | [] => rfl
    | [b1] =>
      have h1 : b1 < 256 := hrange b1 (by simp)
      have e1 := charSextet_sextetChar (b1 / 4) (by omega)
      have e2 := charSextet_sextetChar (b1 % 4 * 16) (by omega)
      simp [encodeBytes, decodeChars, e1, e2]
      omega
    | [b1, b2] =>
      have h1 : b1 < 256 := hrange b1 (by simp)
      have h2 : b2 < 256 := hrange b2 (by simp)
      have e1 := charSextet_sextetChar (b1 / 4) (by omega)
      have e2 := charSextet_sextetChar (b1 % 4 * 16 + b2 / 16) (by omega)
      have e3 := charSextet_sextetChar (b2 % 16 * 4) (by omega)
      simp [encodeBytes, decodeChars, e1, e2, e3, sextetChar_ne_eq (b2 % 16 * 4)]
      omega
    | b1 :: b2 :: b3 :: rest =>
      have h1 : b1 < 256 := hrange b1 (by simp)
      have h2 : b2 < 256 := hrange b2 (by simp)
      have h3 : b3 < 256 := hrange b3 (by simp)
      have e1 := charSextet_sextetChar (b1 / 4) (by omega)
      have e2 := charSextet_sextetChar (b1 % 4 * 16 + b2 / 16) (by omega)
      have e3 := charSextet_sextetChar (b2 % 16 * 4 + b3 / 64) (by omega)
      have e4 := charSextet_sextetChar (b3 % 64) (by omega)
      have htail := ih rest (by simp at hlen; omega)
        (fun b hb => hrange b (by simp [hb]))
      simp [encodeBytes, decodeChars, e1, e2, e3, e4, htail,
        sextetChar_ne_eq (b2 % 16 * 4 + b3 / 64), sextetChar_ne_eq (b3 % 64)]
      omega

theorem char_toNat_ofNat (b : Nat) (h : b < 128) : (Char.ofNat b).toNat = b := by
  have hfin : ∀ m : Fin 128, (Char.ofNat m.val).toNat = m.val := by decide
  exact hfin ⟨b, h⟩

theorem strBytes_asciiStr (bs : List Nat) (h : ∀ b ∈ bs, b < 128) :
    strBytes (asciiStr bs) = bs := by
  unfold strBytes asciiStr
  have htl : (String.mk (bs.map Char.ofNat)).toList = bs.map Char.ofNat := rfl
  rw [htl, List.map_map]
  refine List.map_congr_left (fun b hb => char_toNat_ofNat b (h b hb)) |>.trans (List.map_id _)

/-- C8 amended: for a formula that base64-encodes ASCII text with no
leading or trailing whitespace, `processFormula` decodes it exactly and
re-encoding the result reproduces the original byte sequence; and any
formula failing the base64 validation is answered with an
input-validation error (invalid-base64, or the required-formula error for
the empty string), never passed through.  (The trailing `.trim()` and the
UTF-8 conversion inside `processFormula` make the unrestricted round-trip
of the original claim false; see the counterexample.) -/
theorem processFormula_b64_roundtrip (bytes : List Nat)
    (hrange : ∀ b ∈ bytes, b < 128)
    (hne : bytes ≠ [])
    (hhead : ∀ b, bytes.head? = some b → jsWhitespace (Char.ofNat b) = false)
    (hlast : ∀ b, bytes.getLast? = some b → jsWhitespace (Char.ofNat b) = false) :
    processFormula true (base64encode bytes) = .ok (asciiStr bytes) ∧
    base64encode (strBytes (asciiStr bytes)) = base64encode bytes ∧
    (∀ s : String, isBase64 (urlSafeBase64ToBase64 s) = false →
      processFormula true s = .error .invalidBase64 ∨
      processFormula true s = .error .missingFormula) := by
  have hne' : base64encode bytes ≠ "" := by
    intro hc
    exact encodeBytes_ne_nil bytes hne (by simpa using congrArg String.data hc)
  have hdec : decodeChars (base64encode bytes).toList = some bytes := by
    have : (base64encode bytes).toList = encodeBytes bytes := rfl
    rw [this]
    exact decode_encode bytes.length bytes le_rfl (fun b hb => by have := hrange b hb; omega)
  have htrim : jsTrim (asciiStr bytes) = asciiStr bytes := by
    unfold asciiStr
    refine jsTrim_mk_eq_self _ (fun c hc => ?_) (fun c hc => ?_)
    · rw [List.head?_map] at hc
      cases hb : bytes.head? with
      | none => rw [hb] at hc; simp at hc
      | some b =>
        rw [hb] at hc
        simp at hc
        subst hc
        exact hhead b hb
    · rw [List.getLast?_eq_head?_reverse, ← List.map_reverse, List.head?_map] at hc
      cases hb : bytes.reverse.head? with
      | none => rw [hb] at hc; simp at hc
      | some b =>
        rw [hb] at hc
        simp at hc
        subst hc
        exact hlast b (by rwa [List.getLast?_eq_head?_reverse])
  have hstr_ne : asciiStr bytes ≠ "" := by
    unfold asciiStr
    intro hc
    have := congrArg String.data hc
    cases bytes <;> simp_all
  have hdec' : decodeChars (base64encode bytes).data = some bytes := hdec
  refine ⟨?_, ?_, ?_⟩
  · simp [processFormula, urlSafe_encode_eq bytes, isBase64_encode bytes hne, hdec',
      htrim, hne', hstr_ne]
  · rw [strBytes_asciiStr bytes hrange]
  · intro s hval
    by_cases hs : s = ""
    · subst hs
      right
      rfl
    · left
      simp [processFormula, hs, hval]

/-- C8 counterexample: the formula `eCA=` validly encodes the bytes
`[120, 32]` (the text `x` followed by a space); `processFormula` decodes
it and trims, yielding `x`, and re-encoding that result gives `eA==` —
the original byte sequence is not reproduced. -/
theorem base64_roundtrip_counterexample :
    base64encode [120, 32] = "eCA=" ∧
    processFormula true "eCA=" = .ok "x" ∧
    strBytes "x" = [120] ∧
    base64encode (strBytes "x") = "eA==" ∧
    ("eA==" : String) ≠ "eCA=" := by
  refine ⟨rfl, rfl, rfl, rfl, by decide⟩

/-- Witness for C8's amended statement: the bytes of `ab` round-trip
through encoding, decoding and re-encoding; and the malformed formula `!`
is rejected. -/
theorem processFormula_b64_roundtrip_witness :
    processFormula true (base64encode [97, 98]) = .ok (asciiStr [97, 98]) ∧
    base64encode (strBytes (asciiStr [97, 98])) = base64encode [97, 98] ∧
    (processFormula true "!" = .error .invalidBase64 ∨
      processFormula true "!" = .error .missingFormula) := by
  have h := processFormula_b64_roundtrip [97, 98] (by decide) (by decide)
    (by decide) (by decide)
  exact ⟨h.1, h.2.1, h.2.2 "!" (by decide)⟩

end B64
